import Mathlib

/-
Shallow embedding of the positional selection and extraction engine of the
`cutr` utility (src/cutr/src/lib.rs): the range-list parser `parse_pos`, the
three extractors `extract_chars`, `extract_bytes`, `extract_fields`, and the
driver `run`.  Strings are modelled as lists of Unicode scalar values
(`Str := List Char`); bytes as `Nat` values below 256; Rust `usize` as `Nat`
bounded by `USIZE_MAX = 2^64 - 1` (the 64-bit machine word of the reference
platform).  An operation that can panic in Rust (the `start - 1` subtraction
in `parse_pos`) is embedded with a checked subtraction, so `parse_pos`
returns `none` exactly when the Rust code would panic.
-/
deriving instance DecidableEq for Except

namespace Cutr

/-- Strings are modelled as their sequence of Unicode scalar values. -/
abbrev Str := List Char

/-- Rust `std::ops::Range<usize>`.  The Rust field `end` is a Lean keyword,
so it is called `stop` here. -/
structure Range where
  start : Nat
  stop : Nat
deriving Repr, DecidableEq

/-- Rust `Range::contains(&i)`: `start <= i && i < end`. -/
def rangeContains (r : Range) (i : Nat) : Bool :=
  decide (r.start ≤ i) && decide (i < r.stop)

/-- Rust `str::split` on a one-character pattern: splitting the empty string
yields `[""]`, and separators at the ends yield empty pieces. -/
def splitOnChar (sep : Char) : Str → List Str
  | [] => [[]]
  | c :: cs =>
    let r := splitOnChar sep cs
    if c = sep then [] :: r
    else
      match r with
      | h :: t => (c :: h) :: t
      | [] => [[c]]

/-- Decimal accumulation over a digit string, most significant digit
first. -/
def digitsToNatFrom (acc : Nat) : Str → Nat
  | [] => acc
  | c :: cs => digitsToNatFrom (acc * 10 + (c.toNat - 48)) cs

/-- Decimal value of a digit string. -/
def digitsToNat (l : Str) : Nat := digitsToNatFrom 0 l

/-- Matches the regex `^(\d+)$` on its ASCII fragment: nonempty, all ASCII
decimal digits.  The regex crate's `\d` is Unicode-aware (`\p{Nd}`), so on
tokens containing a non-ASCII decimal digit this predicate is narrower than
the source's regex: such a token matches the source's `single_re` but then
fails `usize` parsing (which accepts ASCII digits only) with an
`invalid digit found in string` error.  Theorems quantifying over token
classes therefore restrict themselves to all-ASCII tokens, on which this
classification and the source's coincide exactly; successful parses are
unaffected, because `usize` parsing succeeds only on ASCII digit runs. -/
def isDigits (l : Str) : Bool :=
  !l.isEmpty && l.all Char.isDigit

/-- Largest value of the 64-bit `usize` of the reference platform. -/
def USIZE_MAX : Nat := 2 ^ 64 - 1

/-- Error kinds of Rust `std::num::ParseIntError` reachable from `usize`
parsing. -/
inductive IntErrKind where
  | empty
  | invalidDigit
  | posOverflow
  | negOverflow
deriving Repr, DecidableEq

/-- Display text of `ParseIntError`, as produced by `format!("{}", e)`. -/
def intErrDisplay : IntErrKind → Str
  | .empty => "cannot parse integer from empty string".data
  | .invalidDigit => "invalid digit found in string".data
  | .posOverflow => "number too large to fit in target type".data
  | .negOverflow => "number too small to fit in target type".data

/-- Digit-accumulation loop of Rust `usize::from_str` for a non-negative
number: fails on the first non-digit, or on the first step that overflows
the machine word. -/
def parseDigitsPos : Str → Nat → Except IntErrKind Nat
  | [], acc => .ok acc
  | c :: cs, acc =>
    if c.isDigit then
      let acc2 := acc * 10 + (c.toNat - 48)
      if acc2 ≤ USIZE_MAX then parseDigitsPos cs acc2 else .error .posOverflow
    else .error .invalidDigit

/-- Rust `val.parse::<usize>()` (`usize::from_str`): an optional `+` sign
(for the unsigned type a `-` is not a sign but an invalid digit, and a
lone sign is an invalid digit), then a nonempty digit run, value bounded
by the machine word. -/
def parseUsize : Str → Except IntErrKind Nat
  | [] => .error .empty
  | c :: cs =>
    if c = '+' then
      match cs with
      | [] => .error .invalidDigit
      | _ => parseDigitsPos cs 0
    else parseDigitsPos (c :: cs) 0

/-- Message `illegal list value: "<t>"` with `<t>` the given text. -/
def msgIllegal (t : Str) : Str :=
  "illegal list value: \"".data ++ t ++ "\"".data

/-- Message `First number in range (<a>) must be lower than second number
(<b>)` with the decimal texts of the two numbers substituted. -/
def msgOrder (a b : Nat) : Str :=
  "First number in range (".data ++ (Nat.repr a).data
    ++ ") must be lower than second number (".data ++ (Nat.repr b).data ++ ")".data

/-- Rust `parse_positive_int` (src/cutr/src/lib.rs:135): parse as `usize`,
demand a strictly positive value.  A zero value is reported as
`illegal list value: "0"` — the source formats the literal `0`, not the
original token — and a parse failure quotes the display text of the
`ParseIntError`. -/
def parse_positive_int (val : Str) : Except Str Nat :=
  match parseUsize val with
  | .ok n => if n > 0 then .ok n else .error (msgIllegal "0".data)
  | .error e => .error (msgIllegal (intErrDisplay e))

/-- Components of a token matching the regex `^(\d+)-(\d+)$` on its ASCII
fragment: exactly one `-`, flanked by two nonempty ASCII digit runs.
Returns the two digit runs.  As with `isDigits`, the source's Unicode-aware
`\d` also matches non-ASCII decimal digits, on which the pair's components
then fail `usize` parsing; all-ASCII tokens are classified identically. -/
def rangeParts (r : Str) : Option (Str × Str) :=
  match splitOnChar '-' r with
  | [a, b] => if isDigits a && isDigits b then some (a, b) else none
  | _ => none

/-- Checked `usize` subtraction: `none` models a Rust underflow panic. -/
def checkedSub (a b : Nat) : Option Nat :=
  if b ≤ a then some (a - b) else none

/-- Per-token closure of `parse_pos` (src/cutr/src/lib.rs:152-171): classify
the token by the pair regex, then the single regex, else report it verbatim
as an illegal list value.  The `none` outcome models the panic of the
unchecked `start - 1` subtraction. -/
def parseTok (r : Str) : Option (Except Str Range) :=
  match rangeParts r with
  | some (a, b) =>
    match parse_positive_int a with
    | .error e => some (.error e)
    | .ok start =>
      match parse_positive_int b with
      | .error e => some (.error e)
      | .ok stop =>
        if start ≥ stop then some (.error (msgOrder start stop))
        else
          match checkedSub start 1 with
          | none => none
          | some s => some (.ok ⟨s, stop⟩)
  | none =>
    if isDigits r then
      match parse_positive_int r with
      | .error e => some (.error e)
      | .ok init =>
        match checkedSub init 1 with
        | none => none
        | some s => some (.ok ⟨s, init⟩)
    else some (.error (msgIllegal r))

/-- Fail-fast collection of the mapped tokens, as Rust
`collect::<Result<Vec<_>, _>>()` over a lazy iterator: tokens after the
first error are not evaluated. -/
def collectTok : List Str → Option (Except Str (List Range))
  | [] => some (.ok [])
  | r :: rs =>
    match parseTok r with
    | none => none
    | some (.error e) => some (.error e)
    | some (.ok rg) =>
      match collectTok rs with
      | none => none
      | some (.error e) => some (.error e)
      | some (.ok l) => some (.ok (rg :: l))

/-- Rust `parse_pos` (src/cutr/src/lib.rs:143): split the specification on
`,` and map every token through the token closure.  The `split.len() < 1`
guard of the source is kept verbatim even though a split is never empty.
`none` models a panic. -/
def parse_pos (range : Str) : Option (Except Str (List Range)) :=
  let split := splitOnChar ',' range
  if split.length < 1 then some (.error "empty string".data)
  else collectTok split

/-- UTF-8 encoding of one Unicode scalar value, as Rust `str::bytes`
produces for each character of a string. -/
def utf8EncodeChar (c : Char) : List Nat :=
  let n := c.toNat
  if n < 0x80 then [n]
  else if n < 0x800 then [0xC0 + n / 0x40, 0x80 + n % 0x40]
  else if n < 0x10000 then
    [0xE0 + n / 0x1000, 0x80 + (n / 0x40) % 0x40, 0x80 + n % 0x40]
  else
    [0xF0 + n / 0x40000, 0x80 + (n / 0x1000) % 0x40, 0x80 + (n / 0x40) % 0x40,
      0x80 + n % 0x40]

/-- Byte sequence of a string: Rust `line.bytes()`. -/
def utf8Encode (s : Str) : List Nat :=
  s.flatMap utf8EncodeChar

/-- Continuation byte `0x80..=0xBF`. -/
def isCont (b : Nat) : Bool := decide (0x80 ≤ b) && decide (b ≤ 0xBF)

/-- Admissible second byte of a three-byte sequence: `0xE0` demands
`0xA0..=0xBF`, `0xED` demands `0x80..=0x9F` (excluding surrogates), the
rest a plain continuation byte. -/
def valid3Second (b1 b2 : Nat) : Bool :=
  if b1 = 0xE0 then decide (0xA0 ≤ b2) && decide (b2 ≤ 0xBF)
  else if b1 = 0xED then decide (0x80 ≤ b2) && decide (b2 ≤ 0x9F)
  else isCont b2

/-- Admissible second byte of a four-byte sequence: `0xF0` demands
`0x90..=0xBF`, `0xF4` demands `0x80..=0x8F` (capping at `U+10FFFF`), the
rest a plain continuation byte. -/
def valid4Second (b1 b2 : Nat) : Bool :=
  if b1 = 0xF0 then decide (0x90 ≤ b2) && decide (b2 ≤ 0xBF)
  else if b1 = 0xF4 then decide (0x80 ≤ b2) && decide (b2 ≤ 0x8F)
  else isCont b2

/-- Unicode replacement character `U+FFFD`. -/
def REPL : Char := Char.ofNat 0xFFFD

/-- Fuel-indexed body of the lossy UTF-8 decoder.  Every step consumes at
least one byte and one unit of fuel, so fuel equal to the byte count never
runs out; the fuel-exhausted branch is unreachable from `utf8DecodeLossy`. -/
def utf8DecodeLossyAux : Nat → List Nat → Str
  | _, [] => []
  | 0, _ :: _ => []
  | fuel + 1, b1 :: rest =>
    if b1 < 0x80 then Char.ofNat b1 :: utf8DecodeLossyAux fuel rest
    else if b1 < 0xC2 then REPL :: utf8DecodeLossyAux fuel rest
    else if b1 < 0xE0 then
      match rest with
      | [] => [REPL]
      | b2 :: rest2 =>
        if isCont b2 then
          Char.ofNat ((b1 - 0xC0) * 0x40 + (b2 - 0x80)) :: utf8DecodeLossyAux fuel rest2
        else REPL :: utf8DecodeLossyAux fuel (b2 :: rest2)
    else if b1 < 0xF0 then
      match rest with
      | [] => [REPL]
      | b2 :: rest2 =>
        if valid3Second b1 b2 then
          match rest2 with
          | [] => [REPL]
          | b3 :: rest3 =>
            if isCont b3 then
              Char.ofNat ((b1 - 0xE0) * 0x1000 + (b2 - 0x80) * 0x40 + (b3 - 0x80))
                :: utf8DecodeLossyAux fuel rest3
            else REPL :: utf8DecodeLossyAux fuel (b3 :: rest3)
        else REPL :: utf8DecodeLossyAux fuel (b2 :: rest2)
    else if b1 < 0xF5 then
      match rest with
      | [] => [REPL]
      | b2 :: rest2 =>
        if valid4Second b1 b2 then
          match rest2 with
          | [] => [REPL]
          | b3 :: rest3 =>
            if isCont b3 then
              match rest3 with
              | [] => [REPL]
              | b4 :: rest4 =>
                if isCont b4 then
                  Char.ofNat ((b1 - 0xF0) * 0x40000 + (b2 - 0x80) * 0x1000
                      + (b3 - 0x80) * 0x40 + (b4 - 0x80)) :: utf8DecodeLossyAux fuel rest4
                else REPL :: utf8DecodeLossyAux fuel (b4 :: rest4)
            else REPL :: utf8DecodeLossyAux fuel (b3 :: rest3)
        else REPL :: utf8DecodeLossyAux fuel (b2 :: rest2)
    else REPL :: utf8DecodeLossyAux fuel rest

/-- Rust `String::from_utf8_lossy`: decode UTF-8, replacing every maximal
invalid subpart (per the WHATWG substitution rule that Rust's `Utf8Error`
`error_len` implements) with one replacement character. -/
def utf8DecodeLossy (l : List Nat) : Str :=
  utf8DecodeLossyAux l.length l

/-- Rust `extract_chars` (src/cutr/src/lib.rs:183): for each range in list
order, append every character whose 0-based position the range contains, in
input order. -/
def extract_chars (line : Str) (char_pos : List Range) : Str :=
  char_pos.foldl
    (fun res r => res ++ (line.enum.filter (fun p => rangeContains r p.1)).map Prod.snd)
    []

/-- Rust `extract_bytes` (src/cutr/src/lib.rs:195): same selection over the
raw byte sequence, then lossy UTF-8 decoding of the collected bytes. -/
def extract_bytes (line : Str) (byte_pos : List Range) : Str :=
  utf8DecodeLossy
    (byte_pos.foldl
      (fun res r =>
        res ++ ((utf8Encode line).enum.filter (fun p => rangeContains r p.1)).map Prod.snd)
      [])

/-- Rust `extract_fields` (src/cutr/src/lib.rs:207): same selection over the
ordered field strings of a record. -/
def extract_fields (record : List Str) (field_pos : List Range) : List Str :=
  field_pos.foldl
    (fun res r => res ++ (record.enum.filter (fun p => rangeContains r p.1)).map Prod.snd)
    []

/-- Rust `Extract` enum (src/cutr/src/lib.rs:16). -/
inductive Extract where
  | Fields (ps : List Range)
  | Bytes (ps : List Range)
  | Chars (ps : List Range)

/-- Rust `Config` (src/cutr/src/lib.rs:22).  The single-byte delimiter is
modelled as a character. -/
structure Config where
  files : List Str
  delimiter : Char
  extract : Extract

/-- Modelled from the spec: the file-opening collaborator (`open`,
src/cutr/src/lib.rs:176, plus the `lines()` reader) is external I/O; the
spec directs to model it as a narrow `open(id) -> readable-stream`
interface.  An environment maps a file name to either an open error or a
stream of line reads, each of which may itself fail with an I/O error. -/
abbrev FileEnv := Str → Except Str (List (Except Str Str))

/-- Modelled from the spec: the delimited-record reader/writer collaborator
"tokenizes/serializes a line into/from an ordered sequence of field strings
given a single-byte delimiter". -/
def recordOfLine (d : Char) (line : Str) : List Str :=
  splitOnChar d line

/-- Modelled from the spec: serialization half of the record collaborator. -/
def writeRecord (d : Char) (fields : List Str) : Str :=
  (List.intersperse [d] fields).flatten

/-- Per-line processing function selected by the `match &config.extract`
dispatch in `run` (src/cutr/src/lib.rs:106-128). -/
def lineFn (ext : Extract) (d : Char) (line : Str) : Str :=
  match ext with
  | .Bytes ps => extract_bytes line ps
  | .Chars ps => extract_chars line ps
  | .Fields ps => writeRecord d (extract_fields (recordOfLine d line) ps)

/-- One opened handle processed to the end or to the first failing read:
the `for line in handle.lines()` loop, where `line?` propagates the first
read error (src/cutr/src/lib.rs:108-115, and likewise `record?` at 125-127).
Returns the lines printed before the failure and the failure, if any. -/
def processHandle (f : Str → Str) : List (Except Str Str) → List Str × Option Str
  | [] => ([], none)
  | .error e :: _ => ([], some e)
  | .ok line :: rest =>
    let (outs, err) := processHandle f rest
    (f line :: outs, err)

/-- Observable outcome of `run`: standard output lines, standard error
lines, and the returned result (`Err` aborts the run). -/
structure RunOut where
  stdout : List Str
  stderr : List Str
  result : Except Str Unit
deriving DecidableEq

/-- File loop of `run` (src/cutr/src/lib.rs:103-131): an open failure is
caught and reported as `<filename>: <err>` on standard error and the loop
continues; a read failure inside an opened file propagates through `?`,
ending the whole run with `Err`. -/
def runFiles (f : Str → Str) (env : FileEnv) : List Str → RunOut
  | [] => ⟨[], [], .ok ()⟩
  | name :: rest =>
    match env name with
    | .error e =>
      let r := runFiles f env rest
      ⟨r.stdout, (name ++ ": ".data ++ e) :: r.stderr, r.result⟩
    | .ok handle =>
      match processHandle f handle with
      | (outs, some e) => ⟨outs, [], .error e⟩
      | (outs, none) =>
        let r := runFiles f env rest
        ⟨outs ++ r.stdout, r.stderr, r.result⟩

/-- Rust `run` (src/cutr/src/lib.rs:101) over an explicit file
environment. -/
def run (cfg : Config) (env : FileEnv) : RunOut :=
  runFiles (lineFn cfg.extract cfg.delimiter) env cfg.files

/-- Range denoted by a well-formed token: `[a-1, b)` for a pair `a-b`,
`[n-1, n)` for a single value `n`. -/
def tokRange (t : Str) : Range :=
  match rangeParts t with
  | some (a, b) => ⟨digitsToNat a - 1, digitsToNat b⟩
  | none => ⟨digitsToNat t - 1, digitsToNat t⟩

/-- Well-formed single token in the sense of the specification: a digit
run whose value is strictly positive. -/
def wfSingleTok (t : Str) : Prop :=
  isDigits t = true ∧ 0 < digitsToNat t

/-- Well-formed pair token in the sense of the specification: two digit
runs around one `-`, both values positive, the first strictly below the
second. -/
def wfPairTok (t : Str) : Prop :=
  ∃ a b, rangeParts t = some (a, b)
    ∧ 0 < digitsToNat a ∧ digitsToNat a < digitsToNat b

/-- Well-formed token as the specification words it (no word-size bound). -/
def wfTok (t : Str) : Prop := wfSingleTok t ∨ wfPairTok t

/-- Well-formed token whose values also fit in the machine word — the
amendment forced by `usize` parsing. -/
def wfTokBounded (t : Str) : Prop :=
  (isDigits t = true ∧ 0 < digitsToNat t ∧ digitsToNat t ≤ USIZE_MAX)
    ∨ (∃ a b, rangeParts t = some (a, b)
        ∧ 0 < digitsToNat a ∧ digitsToNat a < digitsToNat b
        ∧ digitsToNat b ≤ USIZE_MAX)

theorem splitOnChar_ne_nil (sep : Char) (l : Str) : splitOnChar sep l ≠ [] := by
  induction l with
  | nil => simp [splitOnChar]
  | cons c cs ih =>
    simp only [splitOnChar]
    by_cases h : c = sep
    · simp [h]
    · simp only [if_neg h]
      cases hr : splitOnChar sep cs with
      | nil => exact absurd hr ih
      | cons a t => simp

theorem splitOnChar_not_mem (sep : Char) (l : Str) (h : sep ∉ l) :
    splitOnChar sep l = [l] := by
  induction l with
  | nil => rfl
  | cons c cs ih =>
    have hc : ¬ c = sep := fun hc => h (hc ▸ List.mem_cons_self c cs)
    have hcs : sep ∉ cs := fun hm => h (List.mem_cons_of_mem c hm)
    simp only [splitOnChar, if_neg hc, ih hcs]

theorem splitOnChar_append (sep : Char) (xs ys : Str) (h : sep ∉ xs) :
    splitOnChar sep (xs ++ sep :: ys) = xs :: splitOnChar sep ys := by
  induction xs with
  | nil => simp [splitOnChar]
  | cons x xs ih =>
    have hx : ¬ x = sep := fun hx => h (hx ▸ List.mem_cons_self x xs)
    have hxs : sep ∉ xs := fun hm => h (List.mem_cons_of_mem x hm)
    simp only [List.cons_append, splitOnChar, if_neg hx]
    rw [show List.append xs (sep :: ys) = xs ++ sep :: ys from rfl, ih hxs]

theorem isDigit_ne_comma {c : Char} (h : c.isDigit = true) : c ≠ ',' := by
  rintro rfl; exact absurd h (by decide)

theorem isDigit_ne_hyphen {c : Char} (h : c.isDigit = true) : c ≠ '-' := by
  rintro rfl; exact absurd h (by decide)

theorem isDigit_ne_plus {c : Char} (h : c.isDigit = true) : c ≠ '+' := by
  rintro rfl; exact absurd h (by decide)

theorem isDigits_not_mem_comma {l : Str} (h : isDigits l = true) : ',' ∉ l := by
  intro hm
  have hall : ∀ c ∈ l, c.isDigit = true := by
    have := (Bool.and_eq_true _ _).mp h
    exact fun c hc => List.all_eq_true.mp this.2 c hc
  exact isDigit_ne_comma (hall ',' hm) rfl

theorem isDigits_not_mem_hyphen {l : Str} (h : isDigits l = true) : '-' ∉ l := by
  intro hm
  have hall : ∀ c ∈ l, c.isDigit = true := by
    have := (Bool.and_eq_true _ _).mp h
    exact fun c hc => List.all_eq_true.mp this.2 c hc
  exact isDigit_ne_hyphen (hall '-' hm) rfl

theorem filter_enumFrom_eq_slice {α : Type _} (r : Range) :
    ∀ (l : List α) (n : Nat),
      ((List.enumFrom n l).filter fun p => rangeContains r p.1).map Prod.snd
        = (l.drop (r.start - n)).take (r.stop - max r.start n) := by
  intro l
  induction l with
  | nil => intro n; simp
  | cons a t ih =>
    intro n
    show (List.filter _ ((n, a) :: List.enumFrom (n + 1) t)).map Prod.snd = _
    rw [List.filter_cons]
    by_cases hsn : r.start ≤ n
    · by_cases hne : n < r.stop
      · have hc : rangeContains r (n, a).1 = true := by
          simp [rangeContains]; omega
        rw [if_pos hc]
        simp only [List.map_cons]
        rw [ih (n + 1)]
        have h1 : r.start - n = 0 := by omega
        have h2 : r.start - (n + 1) = 0 := by omega
        have h3 : max r.start n = n := by omega
        have h4 : max r.start (n + 1) = n + 1 := by omega
        have h5 : r.stop - n = (r.stop - (n + 1)) + 1 := by omega
        rw [h1, h2, h3, h4, h5]
        simp [List.take_succ_cons]
      · have hc : ¬ (rangeContains r (n, a).1 = true) := by
          simp [rangeContains]; omega
        rw [if_neg hc]
        rw [ih (n + 1)]
        have h1 : r.start - n = 0 := by omega
        have h2 : r.start - (n + 1) = 0 := by omega
        have h3 : max r.start n = n := by omega
        have h4 : max r.start (n + 1) = n + 1 := by omega
        have h5 : r.stop - n = 0 := by omega
        have h6 : r.stop - (n + 1) = 0 := by omega
        rw [h1, h2, h3, h4, h5, h6]
        simp
    · have hc : ¬ (rangeContains r (n, a).1 = true) := by
        simp [rangeContains]; omega
      rw [if_neg hc]
      rw [ih (n + 1)]
      have h3 : max r.start n = r.start := by omega
      have h4 : max r.start (n + 1) = r.start := by omega
      have h5 : r.start - n = (r.start - (n + 1)) + 1 := by omega
      rw [h3, h4, h5]
      simp [List.drop_succ_cons]

theorem sel_eq_slice {α : Type _} (r : Range) (l : List α) :
    ((l.enum.filter fun p => rangeContains r p.1).map Prod.snd)
      = (l.drop r.start).take (r.stop - r.start) := by
  have h := filter_enumFrom_eq_slice r l 0
  simpa using h

theorem foldl_append_eq_flatten {α β : Type _} (f : β → List α) :
    ∀ (ps : List β) (acc : List α),
      ps.foldl (fun res r => res ++ f r) acc = acc ++ (ps.map f).flatten := by
  intro ps
  induction ps with
  | nil => intro acc; simp
  | cons r rs ih => intro acc; simp [ih, List.append_assoc]

theorem digitsToNatFrom_le (l : Str) : ∀ acc : Nat, acc ≤ digitsToNatFrom acc l := by
  induction l with
  | nil => intro acc; exact Nat.le_refl acc
  | cons c cs ih =>
    intro acc
    have h1 : acc ≤ acc * 10 + (c.toNat - 48) := by omega
    exact Nat.le_trans h1 (ih (acc * 10 + (c.toNat - 48)))

theorem parseDigitsPos_ok (l : Str) :
    ∀ acc : Nat, l.all Char.isDigit = true → digitsToNatFrom acc l ≤ USIZE_MAX →
      parseDigitsPos l acc = .ok (digitsToNatFrom acc l) := by
  induction l with
  | nil => intro acc _ _; rfl
  | cons c cs ih =>
    intro acc hall hbound
    have hc : c.isDigit = true := (List.all_eq_true.mp hall c (List.mem_cons_self c cs))
    have hcs : cs.all Char.isDigit = true :=
      List.all_eq_true.mpr fun x hx => List.all_eq_true.mp hall x (List.mem_cons_of_mem c hx)
    have hfrom : digitsToNatFrom acc (c :: cs)
        = digitsToNatFrom (acc * 10 + (c.toNat - 48)) cs := rfl
    have hb2 : acc * 10 + (c.toNat - 48) ≤ USIZE_MAX :=
      Nat.le_trans (digitsToNatFrom_le cs _) (hfrom ▸ hbound)
    simp only [parseDigitsPos, hc, if_pos hb2, if_true]
    rw [hfrom]
    exact ih _ hcs (hfrom ▸ hbound)

theorem parseUsize_digits (l : Str) (h : isDigits l = true)
    (hb : digitsToNat l ≤ USIZE_MAX) : parseUsize l = .ok (digitsToNat l) := by
  cases l with
  | nil => exact absurd h (by decide)
  | cons c cs =>
    have hparts := (Bool.and_eq_true _ _).mp h
    have hc : c.isDigit = true :=
      List.all_eq_true.mp hparts.2 c (List.mem_cons_self c cs)
    have hplus : ¬ c = '+' := isDigit_ne_plus hc
    simp only [parseUsize, if_neg hplus]
    exact parseDigitsPos_ok (c :: cs) 0 hparts.2 hb

theorem parse_positive_int_digits (l : Str) (h : isDigits l = true)
    (hb : digitsToNat l ≤ USIZE_MAX) (hp : 0 < digitsToNat l) :
    parse_positive_int l = .ok (digitsToNat l) := by
  simp only [parse_positive_int, parseUsize_digits l h hb, if_pos hp]

theorem parse_positive_int_zero (l : Str) (h : isDigits l = true)
    (h0 : digitsToNat l = 0) :
    parse_positive_int l = .error (msgIllegal "0".data) := by
  have hb : digitsToNat l ≤ USIZE_MAX := by rw [h0]; decide
  simp only [parse_positive_int, parseUsize_digits l h hb, h0]
  rfl

theorem parse_positive_int_pos {v : Str} {n : Nat}
    (h : parse_positive_int v = .ok n) : 0 < n := by
  unfold parse_positive_int at h
  cases hp : parseUsize v with
  | ok m =>
    rw [hp] at h
    have h2 : (if m > 0 then (Except.ok m : Except Str Nat)
        else Except.error (msgIllegal "0".data)) = Except.ok n := h
    by_cases hm : m > 0
    · rw [if_pos hm] at h2
      cases h2
      exact hm
    · rw [if_neg hm] at h2
      cases h2
  | error e =>
    rw [hp] at h
    have h2 : (Except.error (msgIllegal (intErrDisplay e)) : Except Str Nat)
        = Except.ok n := h
    cases h2

theorem rangeParts_of_digits {t : Str} (h : isDigits t = true) :
    rangeParts t = none := by
  unfold rangeParts
  rw [splitOnChar_not_mem '-' t (isDigits_not_mem_hyphen h)]

theorem parseTok_illegal (r : Str) (h1 : rangeParts r = none)
    (h2 : isDigits r = false) :
    parseTok r = some (.error (msgIllegal r)) := by
  simp only [parseTok, h1, h2]
  rfl

theorem parseTok_single_ok (t : Str) (h : isDigits t = true)
    (hb : digitsToNat t ≤ USIZE_MAX) (hp : 0 < digitsToNat t) :
    parseTok t = some (.ok ⟨digitsToNat t - 1, digitsToNat t⟩) := by
  simp only [parseTok, rangeParts_of_digits h,
    parse_positive_int_digits t h hb hp, checkedSub]
  rw [if_pos h, if_pos (by omega : 1 ≤ digitsToNat t)]

theorem parseTok_single_zero (t : Str) (h : isDigits t = true)
    (h0 : digitsToNat t = 0) :
    parseTok t = some (.error (msgIllegal "0".data)) := by
  simp only [parseTok, rangeParts_of_digits h,
    parse_positive_int_zero t h h0]
  rw [if_pos h]

theorem parseTok_pair_ok (t a b : Str) (hab : rangeParts t = some (a, b))
    (ha : isDigits a = true) (hb : isDigits b = true)
    (hpa : 0 < digitsToNat a) (hlt : digitsToNat a < digitsToNat b)
    (hba : digitsToNat b ≤ USIZE_MAX) :
    parseTok t = some (.ok ⟨digitsToNat a - 1, digitsToNat b⟩) := by
  have hba2 : digitsToNat a ≤ USIZE_MAX := Nat.le_trans (Nat.le_of_lt hlt) hba
  have hpb : 0 < digitsToNat b := Nat.lt_of_le_of_lt (Nat.zero_le _) hlt
  simp only [parseTok, hab, parse_positive_int_digits a ha hba2 hpa,
    parse_positive_int_digits b hb hba hpb, checkedSub]
  rw [if_neg (by omega : ¬ digitsToNat a ≥ digitsToNat b)]
  rw [if_pos (by omega : 1 ≤ digitsToNat a)]

theorem parseTok_pair_order (t a b : Str) (hab : rangeParts t = some (a, b))
    (ha : isDigits a = true) (hb : isDigits b = true)
    (hpa : 0 < digitsToNat a) (hpb : 0 < digitsToNat b)
    (haM : digitsToNat a ≤ USIZE_MAX) (hbM : digitsToNat b ≤ USIZE_MAX)
    (hge : digitsToNat b ≤ digitsToNat a) :
    parseTok t = some (.error (msgOrder (digitsToNat a) (digitsToNat b))) := by
  simp only [parseTok, hab, parse_positive_int_digits a ha haM hpa,
    parse_positive_int_digits b hb hbM hpb]
  rw [if_pos (by omega : digitsToNat a ≥ digitsToNat b)]

theorem parseTok_pair_zero (t a b : Str) (hab : rangeParts t = some (a, b))
    (ha : isDigits a = true) (h0 : digitsToNat a = 0) :
    parseTok t = some (.error (msgIllegal "0".data)) := by
  simp only [parseTok, hab, parse_positive_int_zero a ha h0]

theorem parseTok_isSome (r : Str) : ∃ res, parseTok r = some res := by
  cases hr : rangeParts r with
  | some p =>
    obtain ⟨a, b⟩ := p
    cases hpa : parse_positive_int a with
    | error e => exact ⟨.error e, by simp only [parseTok, hr, hpa]⟩
    | ok start =>
      cases hpb : parse_positive_int b with
      | error e => exact ⟨.error e, by simp only [parseTok, hr, hpa, hpb]⟩
      | ok stop =>
        by_cases hge : start ≥ stop
        · refine ⟨.error (msgOrder start stop), ?_⟩
          simp only [parseTok, hr, hpa, hpb]
          rw [if_pos hge]
        · have hpos := parse_positive_int_pos hpa
          refine ⟨.ok ⟨start - 1, stop⟩, ?_⟩
          simp only [parseTok, hr, hpa, hpb, checkedSub]
          rw [if_neg hge, if_pos (by omega : 1 ≤ start)]
  | none =>
    cases hd : isDigits r with
    | true =>
      cases hpr : parse_positive_int r with
      | error e =>
        refine ⟨.error e, ?_⟩
        simp only [parseTok, hr, hpr]
        rw [if_pos hd]
      | ok init =>
        have hpos := parse_positive_int_pos hpr
        refine ⟨.ok ⟨init - 1, init⟩, ?_⟩
        simp only [parseTok, hr, hpr, checkedSub]
        rw [if_pos hd, if_pos (by omega : 1 ≤ init)]
    | false =>
      refine ⟨.error (msgIllegal r), ?_⟩
      simp only [parseTok, hr]
      rw [if_neg (by simp [hd])]

theorem parseTok_ok_wf {r : Str} {rg : Range}
    (h : parseTok r = some (.ok rg)) : rg.start < rg.stop := by
  cases hr : rangeParts r with
  | some p =>
    obtain ⟨a, b⟩ := p
    simp only [parseTok, hr] at h
    cases hpa : parse_positive_int a with
    | error e => simp [hpa] at h
    | ok start =>
      simp only [hpa] at h
      cases hpb : parse_positive_int b with
      | error e => simp [hpb] at h
      | ok stop =>
        simp only [hpb] at h
        by_cases hge : start ≥ stop
        · rw [if_pos hge] at h
          simp at h
        · rw [if_neg hge] at h
          have hpos := parse_positive_int_pos hpa
          simp only [checkedSub] at h
          rw [if_pos (by omega : 1 ≤ start)] at h
          have h2 : (some (Except.ok (⟨start - 1, stop⟩ : Range))
              : Option (Except Str Range)) = some (.ok rg) := h
          cases h2
          change start - 1 < stop
          omega
  | none =>
    simp only [parseTok, hr] at h
    cases hd : isDigits r with
    | true =>
      rw [if_pos hd] at h
      cases hpr : parse_positive_int r with
      | error e => simp [hpr] at h
      | ok init =>
        simp only [hpr] at h
        have hpos := parse_positive_int_pos hpr
        simp only [checkedSub] at h
        rw [if_pos (by omega : 1 ≤ init)] at h
        have h2 : (some (Except.ok (⟨init - 1, init⟩ : Range))
            : Option (Except Str Range)) = some (.ok rg) := h
        cases h2
        change init - 1 < init
        omega
    | false =>
      rw [if_neg (by simp [hd])] at h
      simp at h

theorem collectTok_isSome : ∀ l : List Str, ∃ res, collectTok l = some res := by
  intro l
  induction l with
  | nil => exact ⟨.ok [], rfl⟩
  | cons r rs ih =>
    obtain ⟨res, hres⟩ := parseTok_isSome r
    cases res with
    | error e => exact ⟨.error e, by simp only [collectTok, hres]⟩
    | ok rg =>
      obtain ⟨res2, h2⟩ := ih
      cases res2 with
      | error e => exact ⟨.error e, by simp only [collectTok, hres, h2]⟩
      | ok lres => exact ⟨.ok (rg :: lres), by simp only [collectTok, hres, h2]⟩

theorem collectTok_ok_wf :
    ∀ (l : List Str) (rl : List Range), collectTok l = some (.ok rl) →
      ∀ rg ∈ rl, rg.start < rg.stop := by
  intro l
  induction l with
  | nil =>
    intro rl h rg hm
    have h2 : (some (Except.ok []) : Option (Except Str (List Range)))
        = some (.ok rl) := h
    cases h2
    cases hm
  | cons r rs ih =>
    intro rl h rg hm
    cases hres : parseTok r with
    | none => simp [collectTok, hres] at h
    | some res =>
      simp only [collectTok, hres] at h
      cases res with
      | error e => simp at h
      | ok rg2 =>
        cases h2 : collectTok rs with
        | none => simp [h2] at h
        | some res2 =>
          simp only [h2] at h
          cases res2 with
          | error e => simp at h
          | ok lres =>
            have h3 : (some (Except.ok (rg2 :: lres)) : Option (Except Str (List Range)))
                = some (.ok rl) := h
            cases h3
            cases hm with
            | head => exact parseTok_ok_wf hres
            | tail _ hm2 => exact ih lres h2 rg hm2

theorem collectTok_map (l : List Str)
    (h : ∀ r ∈ l, parseTok r = some (.ok (tokRange r))) :
    collectTok l = some (.ok (l.map tokRange)) := by
  induction l with
  | nil => rfl
  | cons r rs ih =>
    have hr := h r (List.mem_cons_self r rs)
    have hrs := ih fun x hx => h x (List.mem_cons_of_mem r hx)
    simp only [collectTok, hr, hrs, List.map_cons]

theorem parse_pos_eq_collect (s : Str) :
    parse_pos s = collectTok (splitOnChar ',' s) := by
  have hne := splitOnChar_ne_nil ',' s
  simp only [parse_pos]
  rw [if_neg]
  intro hlt
  exact hne (List.length_eq_zero.mp (by omega))

theorem processHandle_map (f : Str → Str) (lines : List Str) :
    processHandle f (lines.map Except.ok) = (lines.map f, none) := by
  induction lines with
  | nil => rfl
  | cons a t ih => simp only [List.map_cons, processHandle, ih]

theorem foldl_sel_eq_slices {α : Type _} (l : List α) (ps : List Range) :
    ps.foldl
        (fun res r => res ++ (l.enum.filter fun p => rangeContains r p.1).map Prod.snd)
        []
      = (ps.map fun r => (l.drop r.start).take (r.stop - r.start)).flatten := by
  have h := foldl_append_eq_flatten
    (fun r : Range => (l.enum.filter fun p => rangeContains r p.1).map Prod.snd) ps []
  simp only [List.nil_append] at h
  exact h.trans (by simp only [sel_eq_slice])

theorem flatten_slices_nil (ps : List Range) :
    ((ps.map fun r => (([] : Str).drop r.start).take (r.stop - r.start)).flatten
      : Str) = [] := by
  induction ps with
  | nil => rfl
  | cons r rs ih => simp [ih]

/-- Claim C2: `extract_chars` returns, for each range of the selection list
in list order, the slice of the line's characters whose 0-based positions
the range contains, concatenated; overlapping or repeated ranges repeat
characters, out-of-range positions contribute nothing, and an empty line
yields the empty string; `extract_chars("ábc", [2..3, 1..2]) = "cb"` and
`extract_chars("ábc", [0..1, 4..5]) = "á"`. -/
theorem extract_chars_spec :
    (∀ (line : Str) (ps : List Range),
        extract_chars line ps
          = (ps.map fun r => (line.drop r.start).take (r.stop - r.start)).flatten)
  ∧ (∀ ps : List Range, extract_chars [] ps = [])
  ∧ extract_chars "ábc".data [⟨2, 3⟩, ⟨1, 2⟩] = "cb".data
  ∧ extract_chars "ábc".data [⟨0, 1⟩, ⟨4, 5⟩] = "á".data := by
  have hmain : ∀ (line : Str) (ps : List Range),
      extract_chars line ps
        = (ps.map fun r => (line.drop r.start).take (r.stop - r.start)).flatten :=
    fun line ps => foldl_sel_eq_slices line ps
  exact ⟨hmain, fun ps => (hmain [] ps).trans (flatten_slices_nil ps), rfl, rfl⟩

/-- Claim C3: `extract_bytes` selects the line's raw bytes by 0-based byte
position, ranges in list order, then converts the collected byte sequence
to a string by lossy UTF-8 decoding (replacement character, never failure);
`extract_bytes("ábc", [0..1])` is the replacement character and
`extract_bytes("ábc", [0..2]) = "á"`. -/
theorem extract_bytes_spec :
    (∀ (line : Str) (ps : List Range),
        extract_bytes line ps
          = utf8DecodeLossy
              ((ps.map fun r =>
                  ((utf8Encode line).drop r.start).take (r.stop - r.start)).flatten))
  ∧ extract_bytes "ábc".data [⟨0, 1⟩] = [REPL]
  ∧ extract_bytes "ábc".data [⟨0, 2⟩] = "á".data := by
  refine ⟨fun line ps => ?_, rfl, rfl⟩
  exact congrArg utf8DecodeLossy (foldl_sel_eq_slices (utf8Encode line) ps)

/-- Claim C4: `extract_fields` returns, for each range of the selection
list in list order, the existing fields whose 0-based column index the
range contains, in field order, silently dropping indices with no
corresponding field; for `["Captain","Sham","12345"]`, `[1..2, 0..1]`
gives `["Sham","Captain"]` and `[0..1, 3..4]` gives `["Captain"]`. -/
theorem extract_fields_spec :
    (∀ (record : List Str) (ps : List Range),
        extract_fields record ps
          = (ps.map fun r => (record.drop r.start).take (r.stop - r.start)).flatten)
  ∧ extract_fields ["Captain".data, "Sham".data, "12345".data] [⟨1, 2⟩, ⟨0, 1⟩]
      = ["Sham".data, "Captain".data]
  ∧ extract_fields ["Captain".data, "Sham".data, "12345".data] [⟨0, 1⟩, ⟨3, 4⟩]
      = ["Captain".data] := by
  exact ⟨fun record ps => foldl_sel_eq_slices record ps, rfl, rfl⟩

/-- Claim C6 (counterexample): `parse("")` does not fail with the message
`empty string`; it fails with `illegal list value: ""`, because splitting
the empty string on `,` yields one empty token, so the `empty string`
branch is never reached. -/
theorem parse_pos_empty_counterexample :
    parse_pos "".data = some (.error (msgIllegal "".data))
  ∧ parse_pos "".data ≠ some (.error "empty string".data) :=
  ⟨rfl, by decide⟩

/-- Claim C6 (amended): the empty specification splits into one empty
token, so `parse("")` fails with `illegal list value: ""`; splitting never
yields zero tokens, so the `empty string` guard of the source is dead and
`parse_pos` always reaches the token loop. -/
theorem parse_pos_empty_amended :
    parse_pos "".data = some (.error (msgIllegal "".data))
  ∧ (∀ s : Str, 1 ≤ (splitOnChar ',' s).length
      ∧ parse_pos s = collectTok (splitOnChar ',' s)) := by
  refine ⟨rfl, fun s => ⟨?_, parse_pos_eq_collect s⟩⟩
  have hne := splitOnChar_ne_nil ',' s
  cases h : splitOnChar ',' s with
  | nil => exact absurd h hne
  | cons a t => simp

/-- Claim C7 (counterexample): a single-value failure does not quote the
original token: the token `00` parses to value 0 and is reported as
`illegal list value: "0"` — the literal `0`, not the token text `00`. -/
theorem parse_pos_zero_token_counterexample :
    parse_pos "00".data = some (.error (msgIllegal "0".data))
  ∧ msgIllegal "0".data ≠ msgIllegal "00".data :=
  ⟨rfl, by decide⟩

/-- Claim C7 (amended): an all-ASCII token matching neither grammar
(non-numeric, signed, malformed pair, multiple hyphens) is quoted
verbatim in `illegal list value: "<token>"` — the restriction to ASCII
tokens marks the fragment on which the ASCII embedding of the source's
Unicode-aware `\d` is exact: a token made of non-ASCII decimal digits,
such as `"٣"`, matches the source's regex instead and fails `usize`
parsing, producing `illegal list value: "invalid digit found in string"`,
not the verbatim quote.  A grammar-matching token whose (first) value
parses to 0 is reported as `illegal list value: "0"` with the literal `0`
regardless of the original spelling; in particular `parse("0")` and
`parse("0-1")` fail with `illegal list value: "0"`. -/
theorem parse_pos_illegal_value_msgs :
    (∀ r : Str, (∀ c ∈ r, c.toNat < 128) → ',' ∉ r →
        rangeParts r = none → isDigits r = false →
        parse_pos r = some (.error (msgIllegal r)))
  ∧ (∀ r : Str, isDigits r = true → digitsToNat r = 0 →
        parse_pos r = some (.error (msgIllegal "0".data)))
  ∧ parse_pos "0".data = some (.error (msgIllegal "0".data))
  ∧ parse_pos "0-1".data = some (.error (msgIllegal "0".data)) := by
  refine ⟨?_, ?_, rfl, rfl⟩
  · intro r _ hc hrp hd
    rw [parse_pos_eq_collect, splitOnChar_not_mem ',' r hc]
    simp only [collectTok, parseTok_illegal r hrp hd]
  · intro r hd h0
    rw [parse_pos_eq_collect, splitOnChar_not_mem ',' r (isDigits_not_mem_comma hd)]
    simp only [collectTok, parseTok_single_zero r hd h0]

/-- Claim C7 (witness): the amended theorem applied to the all-ASCII
non-matching token `+1` (quoted verbatim) and to the zero-valued token
`00`. -/
theorem parse_pos_illegal_value_msgs_witness :
    (∀ c ∈ "+1".data, c.toNat < 128) ∧ (¬ (',' ∈ "+1".data))
  ∧ rangeParts "+1".data = none
  ∧ isDigits "+1".data = false
  ∧ parse_pos "+1".data = some (.error (msgIllegal "+1".data))
  ∧ isDigits "00".data = true ∧ digitsToNat "00".data = 0
  ∧ parse_pos "00".data = some (.error (msgIllegal "0".data)) :=
  ⟨by decide, by decide, by decide, by decide,
    parse_pos_illegal_value_msgs.1 "+1".data (by decide) (by decide) (by decide)
      (by decide),
    by decide, by decide,
    parse_pos_illegal_value_msgs.2.1 "00".data (by decide) (by decide)⟩

/-- Claim C8: a pair token whose components both parse as positive
integers with the first at least the second fails with `First number in
range (<a>) must be lower than second number (<b>)`, substituting the
parsed numbers. -/
theorem parse_pos_pair_order_error (a b : Str)
    (ha : isDigits a = true) (hb : isDigits b = true)
    (hpa : 0 < digitsToNat a) (hpb : 0 < digitsToNat b)
    (haM : digitsToNat a ≤ USIZE_MAX) (hbM : digitsToNat b ≤ USIZE_MAX)
    (hge : digitsToNat b ≤ digitsToNat a) :
    parse_pos (a ++ '-' :: b)
      = some (.error (msgOrder (digitsToNat a) (digitsToNat b))) := by
  have hnc : ',' ∉ (a ++ '-' :: b) := by
    intro hm
    rcases List.mem_append.mp hm with h1 | h2
    · exact isDigits_not_mem_comma ha h1
    · rcases List.mem_cons.mp h2 with h3 | h4
      · exact absurd h3 (by decide)
      · exact isDigits_not_mem_comma hb h4
  have hrp : rangeParts (a ++ '-' :: b) = some (a, b) := by
    unfold rangeParts
    rw [splitOnChar_append '-' a b (isDigits_not_mem_hyphen ha),
      splitOnChar_not_mem '-' b (isDigits_not_mem_hyphen hb)]
    simp [ha, hb]
  rw [parse_pos_eq_collect, splitOnChar_not_mem ',' _ hnc]
  simp only [collectTok, parseTok_pair_order _ a b hrp ha hb hpa hpb haM hbM hge]

/-- Claim C8 (witness): `parse("2-1")` and `parse("1-1")` fail with the
order message carrying the actual numbers. -/
theorem parse_pos_pair_order_error_witness :
    isDigits "2".data = true ∧ (0 < digitsToNat "2".data)
  ∧ (digitsToNat "1".data ≤ digitsToNat "2".data)
  ∧ parse_pos "2-1".data = some (.error (msgOrder 2 1))
  ∧ parse_pos "1-1".data = some (.error (msgOrder 1 1)) := by
  refine ⟨by decide, by decide, by decide, ?_, ?_⟩
  · exact parse_pos_pair_order_error "2".data "1".data (by decide) (by decide)
      (by decide) (by decide) (by decide) (by decide) (by decide)
  · exact parse_pos_pair_order_error "1".data "1".data (by decide) (by decide)
      (by decide) (by decide) (by decide) (by decide) (by decide)

/-- Claim C9: every range of a successfully parsed selection list is
half-open nonempty, `start < stop` (both bounds are naturals, hence
non-negative): no empty or inverted range is ever constructed. -/
theorem parse_pos_range_invariant (s : Str) (rl : List Range)
    (h : parse_pos s = some (.ok rl)) :
    ∀ rg ∈ rl, rg.start < rg.stop := by
  rw [parse_pos_eq_collect] at h
  exact collectTok_ok_wf _ rl h

/-- Claim C9 (witness): the invariant applied to the parse of `1,7,3-5`. -/
theorem parse_pos_range_invariant_witness :
    parse_pos "1,7,3-5".data = some (.ok [⟨0, 1⟩, ⟨6, 7⟩, ⟨2, 5⟩])
  ∧ (⟨0, 1⟩ : Range).start < (⟨0, 1⟩ : Range).stop := by
  refine ⟨rfl, ?_⟩
  exact parse_pos_range_invariant "1,7,3-5".data [⟨0, 1⟩, ⟨6, 7⟩, ⟨2, 5⟩] rfl
    ⟨0, 1⟩ (by simp)

/-- Claim C10: `parse_positive_int` only ever returns values strictly
greater than zero, and `parse_pos` is total and never reaches the
underflowing subtraction: on every input string it returns a value (the
`none` outcome that models a Rust panic is impossible). -/
theorem parse_pos_total_no_panic :
    (∀ (v : Str) (n : Nat), parse_positive_int v = .ok n → 0 < n)
  ∧ (∀ s : Str, ∃ res, parse_pos s = some res) := by
  refine ⟨fun v n h => parse_positive_int_pos h, fun s => ?_⟩
  rw [parse_pos_eq_collect]
  exact collectTok_isSome _

/-- Claim C10 (witness): positivity at the token `5` and totality at the
specification `1,2-4`. -/
theorem parse_pos_total_no_panic_witness :
    (0 < 5) ∧ ∃ res, parse_pos "1,2-4".data = some res :=
  ⟨parse_pos_total_no_panic.1 "5".data 5 (by rfl),
    parse_pos_total_no_panic.2 "1,2-4".data⟩

theorem rangeParts_digits {t a b : Str} (h : rangeParts t = some (a, b)) :
    isDigits a = true ∧ isDigits b = true := by
  unfold rangeParts at h
  cases hs : splitOnChar '-' t with
  | nil =>
    rw [hs] at h
    have h2 : (none : Option (Str × Str)) = some (a, b) := h
    cases h2
  | cons x xs =>
    rw [hs] at h
    cases xs with
    | nil =>
      have h2 : (none : Option (Str × Str)) = some (a, b) := h
      cases h2
    | cons y ys =>
      cases ys with
      | nil =>
        have h2 : (if (isDigits x && isDigits y) = true then some (x, y)
            else (none : Option (Str × Str))) = some (a, b) := h
        by_cases hd : (isDigits x && isDigits y) = true
        · rw [if_pos hd] at h2
          cases h2
          exact ⟨((Bool.and_eq_true _ _).mp hd).1, ((Bool.and_eq_true _ _).mp hd).2⟩
        · rw [if_neg hd] at h2
          cases h2
      | cons z zs =>
        have h2 : (none : Option (Str × Str)) = some (a, b) := h
        cases h2

/-- Claim C1 (counterexample): the token `18446744073709551616` (2^64) is
a well-formed single positive decimal integer by the claim's grammar, yet
`parse` fails, because the `usize` parsing of the source overflows the
64-bit machine word on it. -/
theorem parse_pos_wellformed_overflow_counterexample :
    wfTok "18446744073709551616".data
  ∧ splitOnChar ',' "18446744073709551616".data = ["18446744073709551616".data]
  ∧ parse_pos "18446744073709551616".data
      = some (.error (msgIllegal "number too large to fit in target type".data))
  ∧ parse_pos "18446744073709551616".data
      ≠ some (.ok (["18446744073709551616".data].map tokRange)) := by
  refine ⟨Or.inl ⟨by decide, by decide⟩, by decide, rfl, by decide⟩

/-- Claim C1 (amended): for every specification string whose tokens are
all well-formed with values that fit the machine word (`≤ usize::MAX`),
parse succeeds and returns exactly one half-open range per token in token
order, with no sorting, merging or deduplication: a single token `n`
produces `[n-1, n)` and a pair `a-b` produces `[a-1, b)`. -/
theorem parse_pos_wellformed_ok (s : Str)
    (h : ∀ t ∈ splitOnChar ',' s, wfTokBounded t) :
    parse_pos s = some (.ok ((splitOnChar ',' s).map tokRange)) := by
  rw [parse_pos_eq_collect]
  apply collectTok_map
  intro t ht
  rcases h t ht with ⟨hd, hp, hb⟩ | ⟨a, b, hab, hpa, hlt, hbM⟩
  · rw [parseTok_single_ok t hd hb hp]
    simp only [tokRange, rangeParts_of_digits hd]
  · obtain ⟨hda, hdb⟩ := rangeParts_digits hab
    rw [parseTok_pair_ok t a b hab hda hdb hpa hlt hbM]
    simp only [tokRange, hab]

/-- Claim C1 (witness): the amended theorem applied to `1,7,3-5`, giving
`[0..1, 6..7, 2..5]` in token order. -/
theorem parse_pos_wellformed_ok_witness :
    (∀ t ∈ splitOnChar ',' "1,7,3-5".data, wfTokBounded t)
  ∧ parse_pos "1,7,3-5".data = some (.ok [⟨0, 1⟩, ⟨6, 7⟩, ⟨2, 5⟩]) := by
  have hs : splitOnChar ',' "1,7,3-5".data = ["1".data, "7".data, "3-5".data] := by
    decide
  have hwf : ∀ t ∈ splitOnChar ',' "1,7,3-5".data, wfTokBounded t := by
    rw [hs]
    intro t ht
    simp only [List.mem_cons, List.not_mem_nil, or_false] at ht
    rcases ht with rfl | rfl | rfl
    · exact Or.inl ⟨by decide, by decide, by decide⟩
    · exact Or.inl ⟨by decide, by decide, by decide⟩
    · exact Or.inr ⟨"3".data, "5".data, by decide, by decide, by decide, by decide⟩
  refine ⟨hwf, ?_⟩
  have h := parse_pos_wellformed_ok "1,7,3-5".data hwf
  rw [h, hs]
  decide

/-- Claim C5 (counterexample): an I/O fault while reading an opened file
is not recoverable: with file `a` opening fine but failing on its first
line read and file `b` perfectly readable, the run aborts with the read
error, emits no diagnostic at all, and produces no output for `b` — even
though `b` alone would have produced output. -/
theorem run_read_abort_counterexample :
    ((fun name => if name = "a".data
        then (Except.ok [Except.error "read failure".data]
          : Except Str (List (Except Str Str)))
        else Except.ok [Except.ok "xy".data]) "b".data
      = Except.ok [Except.ok "xy".data])
  ∧ run ⟨["b".data], '\t', .Chars [⟨0, 1⟩]⟩
        (fun name => if name = "a".data
          then .ok [.error "read failure".data] else .ok [.ok "xy".data])
      = ⟨["x".data], [], .ok ()⟩
  ∧ run ⟨["a".data, "b".data], '\t', .Chars [⟨0, 1⟩]⟩
        (fun name => if name = "a".data
          then .ok [.error "read failure".data] else .ok [.ok "xy".data])
      = ⟨[], [], .error "read failure".data⟩ :=
  ⟨by decide, by decide, by decide⟩

/-- Claim C5 (amended): per-file OPEN errors are recoverable at the driver
level: a file that fails to open is reported to the diagnostic stream as
`<file>: <error>`, skipped, and the remaining files are still processed —
if file A fails to open and file B succeeds, output for B is produced and
the run returns success.  (An I/O fault while reading an already-opened
file instead propagates and aborts the run.) -/
theorem run_open_error_skips (ext : Extract) (d : Char) (env : FileEnv)
    (A B e : Str) (lines : List Str)
    (hA : env A = .error e) (hB : env B = .ok (lines.map Except.ok)) :
    run ⟨[A, B], d, ext⟩ env
      = ⟨lines.map (lineFn ext d), [A ++ ": ".data ++ e], .ok ()⟩ := by
  simp only [run, runFiles, hA, hB, processHandle_map, List.append_nil]

/-- Claim C5 (witness): the amended theorem at a concrete environment in
which `a` fails to open with `boom` and `b` holds one line `xyz`: the
diagnostic `a: boom` is emitted and `b`'s extracted output `x` is
produced. -/
theorem run_open_error_skips_witness :
    ((fun name => if name = "a".data
        then (Except.error "boom".data : Except Str (List (Except Str Str)))
        else Except.ok [Except.ok "xyz".data]) "a".data = Except.error "boom".data)
  ∧ run ⟨["a".data, "b".data], '\t', .Chars [⟨0, 1⟩]⟩
        (fun name => if name = "a".data
          then .error "boom".data else .ok [.ok "xyz".data])
      = ⟨["x".data], ["a: boom".data], .ok ()⟩ := by
  refine ⟨by decide, ?_⟩
  have h := run_open_error_skips (.Chars [⟨0, 1⟩]) '\t'
      (fun name => if name = "a".data
        then .error "boom".data else .ok [.ok "xyz".data])
      "a".data "b".data "boom".data ["xyz".data] (by decide) (by decide)
  rw [h]
  decide

end Cutr
